import Mathlib

/-!
Verification of the core of the EMA-crossover strategy backtester.

The development shallowly embeds the Python sources:
  src/core/strategy_base.py   (parameter schema validation),
  src/core/registry.py        (strategy registry),
  src/strategies/ema_crossover.py (EMA computation, crossover strategy),
  src/app.py                  (run_backtest guards),
  src/utils/io_utils.py       (CSV ingestion pipeline),
and proves or refutes the specified properties about them.

Numbers are modelled as exact rationals; Python dicts are association
lists looked up by first match; pandas frames are a column list plus a
row list of cells.
-/

/- ===================== Trade modes, positions, intents ===================== -/

/-- Trade-direction policy, from `EMACrossBT.trade_mode`
(src/strategies/ema_crossover.py line 38): Only_Buy, Only_Sell, Both_Buy_Sell. -/
inductive TradeMode
  | onlyBuy
  | onlySell
  | bothBuySell
deriving DecidableEq

/-- Net position held by the strategy: flat, long or short. `is_long` and
`is_short` queries of the backtesting position object are modelled by equality
with these constructors. -/
inductive PositionState
  | flat
  | long
  | short
deriving DecidableEq

/-- Order intents the strategy can emit in one bar evaluation:
`self.buy()`, `self.sell()` and `self.position.close()`. -/
inductive OrderIntent
  | openLong
  | openShort
  | close
deriving DecidableEq

/-- Effect of one order intent on the position, as resolved by the execution
engine between bars (`exclusive_orders=True` in src/app.py line 77: a buy or
sell replaces any existing position). -/
def applyIntent (pos : PositionState) (i : OrderIntent) : PositionState :=
  match i with
  | .close => .flat
  | .openLong => .long
  | .openShort => .short

/-- Embedding of `EMACrossBT.next` (src/strategies/ema_crossover.py lines
51-86) as a pure function of the trade mode, the position at bar entry, and
the two crossover booleans `up` and `down`.  Position queries inside one
`next()` call all observe the bar-entry position (orders placed during the
call only take effect afterwards); the returned state is the result of
applying the emitted intents in order. -/
def emaNext (mode : TradeMode) (pos : PositionState) (up down : Bool) :
    List OrderIntent × PositionState :=
  let intents : List OrderIntent :=
    match mode with
    | .onlyBuy =>
      (if pos = .short then [.close] else [])
        ++ (if up = true ∧ pos ≠ .long then [.openLong] else [])
        ++ (if pos = .long ∧ down = true then [.close] else [])
    | .onlySell =>
      (if pos = .long then [.close] else [])
        ++ (if down = true ∧ pos ≠ .short then [.openShort] else [])
        ++ (if pos = .short ∧ up = true then [.close] else [])
    | .bothBuySell =>
      if up = true then
        (if pos = .short then [.close] else [])
          ++ (if pos ≠ .long then [.openLong] else [])
      else if down = true then
        (if pos = .long then [.close] else [])
          ++ (if pos ≠ .short then [.openShort] else [])
      else []
  (intents, intents.foldl applyIntent pos)

/-- States reached after each bar when running `emaNext` over a sequence of
(up, down) crossover observations. -/
def runStates (mode : TradeMode) : PositionState → List (Bool × Bool) → List PositionState
  | _, [] => []
  | pos, e :: rest =>
    (emaNext mode pos e.1 e.2).2 :: runStates mode (emaNext mode pos e.1 e.2).2 rest

/-- All order intents emitted when running `emaNext` over a sequence of
(up, down) crossover observations. -/
def runIntents (mode : TradeMode) : PositionState → List (Bool × Bool) → List OrderIntent
  | _, [] => []
  | pos, e :: rest =>
    (emaNext mode pos e.1 e.2).1 ++ runIntents mode (emaNext mode pos e.1 e.2).2 rest

/- ===================== Crossover detection ===================== -/

/-- Crossover events per bar, tagged as in the spec data model. -/
inductive CrossEvent
  | noEvent
  | fastAboveSlow
  | fastBelowSlow
deriving DecidableEq

/-- Modelled from the spec: the crossing test of the external library helper
called at src/strategies/ema_crossover.py lines 52-53 (`crossover` from the
backtesting library, whose source is not part of this repository).  Per the
spec, series one crosses above series two at bar t exactly when t ≥ 1,
one[t-1] ≤ two[t-1] and one[t] > two[t]; bar 0 has no prior bar and never
fires. -/
def crossUp (one two : List ℚ) (t : ℕ) : Bool :=
  decide (1 ≤ t) && decide (one.getD (t-1) 0 ≤ two.getD (t-1) 0)
    && decide (two.getD t 0 < one.getD t 0)

/-- Embedding of the event computed at src/strategies/ema_crossover.py lines
52-53: `up = crossover(fast, slow)`, `down = crossover(slow, fast)`, combined
into one tagged event per bar. -/
def crossoverEvent (fast slow : List ℚ) (t : ℕ) : CrossEvent :=
  if crossUp fast slow t then .fastAboveSlow
  else if crossUp slow fast t then .fastBelowSlow
  else .noEvent

/- ===================== EMA computation ===================== -/

/-- Recursive core of the unadjusted exponentially weighted mean: given the
running value `y`, emit it and fold the next observation in with weight `a`. -/
def ewmGo (a : ℚ) (y : ℚ) : List ℚ → List ℚ
  | [] => [y]
  | x :: xs => y :: ewmGo a ((1 - a) * y + a * x) xs

/-- Unadjusted exponentially weighted mean of a series, seeded at its first
value: the semantics of pandas `Series.ewm(alpha, adjust=False).mean()`. -/
def ewmMeanUnadjusted (a : ℚ) : List ℚ → List ℚ
  | [] => []
  | x :: xs => ewmGo a x xs

/-- Embedding of `_ema_pandas` (src/strategies/ema_crossover.py lines 18-21):
`s.ewm(span=period, adjust=False).mean()`, i.e. the unadjusted weighted mean
with alpha = 2 / (span + 1). -/
def ema_pandas (data : List ℚ) (period : ℕ) : List ℚ :=
  ewmMeanUnadjusted (2 / ((period : ℚ) + 1)) data

/-- Spec-side recursive EMA definition, written from the claim's words for
comparison with `ema_pandas`: EMA[0] = close[0] and
EMA[t] = a·close[t] + (1-a)·EMA[t-1] with a = 2/(p+1). -/
def emaSpecAt (close : List ℚ) (p : ℕ) : ℕ → ℚ
  | 0 => close.getD 0 0
  | t + 1 =>
    (2 / ((p : ℚ) + 1)) * close.getD (t + 1) 0
      + (1 - 2 / ((p : ℚ) + 1)) * emaSpecAt close p t

/-- Embedding of `_ema_talib_or_pandas` (src/strategies/ema_crossover.py lines
23-32).  The TA-Lib engine is modelled as an optional function that may fail:
`none` is an unavailable library (import fails), `Except.error` a raising
call; in either case the code falls back to `ema_pandas`. -/
def ema_talib_or_pandas (talibEMA : Option (List ℚ → ℕ → Except String (List ℚ)))
    (data : List ℚ) (period : ℕ) : List ℚ :=
  match talibEMA with
  | some f =>
    match f data period with
    | .ok out => out
    | .error _ => ema_pandas data period
  | none => ema_pandas data period

/- ===================== Helper lemmas ===================== -/

lemma ewmGo_getD_zero (a y : ℚ) (xs : List ℚ) : (ewmGo a y xs).getD 0 0 = y := by
  cases xs <;> rfl

lemma ewmGo_getD_succ (a : ℚ) (xs : List ℚ) :
    ∀ (y : ℚ) (t : ℕ), t < xs.length →
      (ewmGo a y xs).getD (t + 1) 0
        = a * xs.getD t 0 + (1 - a) * (ewmGo a y xs).getD t 0 := by
  induction xs with
  | nil => intro y t h; simp at h
  | cons x xs ih =>
    intro y t h
    cases t with
    | zero =>
      show (y :: ewmGo a ((1 - a) * y + a * x) xs).getD 1 0
          = a * (x :: xs).getD 0 0 + (1 - a) * (y :: ewmGo a ((1 - a) * y + a * x) xs).getD 0 0
      rw [List.getD_cons_succ, List.getD_cons_zero, List.getD_cons_zero, ewmGo_getD_zero]
      ring
    | succ t =>
      have h2 : t < xs.length := by simpa using Nat.lt_of_succ_lt_succ h
      show (y :: ewmGo a ((1 - a) * y + a * x) xs).getD (t + 2) 0
          = a * (x :: xs).getD (t + 1) 0
            + (1 - a) * (y :: ewmGo a ((1 - a) * y + a * x) xs).getD (t + 1) 0
      simpa using ih ((1 - a) * y + a * x) t h2

lemma crossUp_iff (one two : List ℚ) (t : ℕ) :
    crossUp one two t = true ↔
      1 ≤ t ∧ one.getD (t - 1) 0 ≤ two.getD (t - 1) 0 ∧ two.getD t 0 < one.getD t 0 := by
  simp [crossUp, Bool.and_eq_true, decide_eq_true_eq, and_assoc]

lemma crossUp_asymm (one two : List ℚ) (t : ℕ) (h : crossUp one two t = true) :
    crossUp two one t = false := by
  obtain ⟨_, _, hlt⟩ := (crossUp_iff one two t).mp h
  by_contra hx
  rw [Bool.not_eq_false] at hx
  obtain ⟨_, _, hlt2⟩ := (crossUp_iff two one t).mp hx
  exact absurd (hlt.trans hlt2) (lt_irrefl _)

lemma crossoverEvent_eq_above (fast slow : List ℚ) (t : ℕ) :
    crossoverEvent fast slow t = .fastAboveSlow ↔ crossUp fast slow t = true := by
  rcases Bool.eq_false_or_eq_true (crossUp fast slow t) with h | h <;>
    rcases Bool.eq_false_or_eq_true (crossUp slow fast t) with h2 | h2 <;>
      simp [crossoverEvent, h, h2]

lemma crossoverEvent_eq_below (fast slow : List ℚ) (t : ℕ) :
    crossoverEvent fast slow t = .fastBelowSlow ↔
      crossUp fast slow t = false ∧ crossUp slow fast t = true := by
  rcases Bool.eq_false_or_eq_true (crossUp fast slow t) with h | h <;>
    rcases Bool.eq_false_or_eq_true (crossUp slow fast t) with h2 | h2 <;>
      simp [crossoverEvent, h, h2]

/-- C2: at every bar t ≥ 1, FastAboveSlow fires exactly when
fast[t-1] ≤ slow[t-1] and fast[t] > slow[t], and FastBelowSlow exactly when
fast[t-1] ≥ slow[t-1] and fast[t] < slow[t]; no event fires at bar 0; equal
EMAs on both sides of the boundary produce no event. -/
theorem crossover_event_spec (fast slow : List ℚ) (t : ℕ) :
    (1 ≤ t →
      ((crossoverEvent fast slow t = .fastAboveSlow ↔
          fast.getD (t - 1) 0 ≤ slow.getD (t - 1) 0 ∧ slow.getD t 0 < fast.getD t 0) ∧
       (crossoverEvent fast slow t = .fastBelowSlow ↔
          slow.getD (t - 1) 0 ≤ fast.getD (t - 1) 0 ∧ fast.getD t 0 < slow.getD t 0))) ∧
    crossoverEvent fast slow 0 = .noEvent ∧
    (fast.getD (t - 1) 0 = slow.getD (t - 1) 0 ∧ fast.getD t 0 = slow.getD t 0 →
      crossoverEvent fast slow t = .noEvent) := by
  refine ⟨fun ht => ⟨?_, ?_⟩, ?_, fun heq => ?_⟩
  · rw [crossoverEvent_eq_above, crossUp_iff]
    exact ⟨fun h => ⟨h.2.1, h.2.2⟩, fun h => ⟨ht, h.1, h.2⟩⟩
  · rw [crossoverEvent_eq_below]
    constructor
    · intro h
      obtain ⟨_, hle, hlt⟩ := (crossUp_iff slow fast t).mp h.2
      exact ⟨hle, hlt⟩
    · intro h
      have hdn : crossUp slow fast t = true := (crossUp_iff slow fast t).mpr ⟨ht, h.1, h.2⟩
      exact ⟨crossUp_asymm slow fast t hdn, hdn⟩
  · simp [crossoverEvent, crossUp]
  · have h1 : crossUp fast slow t = false := by
      by_contra hx
      rw [Bool.not_eq_false] at hx
      obtain ⟨_, _, hlt⟩ := (crossUp_iff fast slow t).mp hx
      rw [heq.2] at hlt
      exact absurd hlt (lt_irrefl _)
    have h2 : crossUp slow fast t = false := by
      by_contra hx
      rw [Bool.not_eq_false] at hx
      obtain ⟨_, _, hlt⟩ := (crossUp_iff slow fast t).mp hx
      rw [heq.2] at hlt
      exact absurd hlt (lt_irrefl _)
    simp [crossoverEvent, h1, h2]

/-- Witness for C2: on fast = [1, 3], slow = [2, 2] the event at bar 1 is
FastAboveSlow, by the characterisation theorem. -/
theorem crossover_event_spec_witness :
    crossoverEvent [(1 : ℚ), 3] [(2 : ℚ), 2] 1 = .fastAboveSlow :=
  (((crossover_event_spec [(1 : ℚ), 3] [(2 : ℚ), 2] 1).1 (by decide)).1).mpr
    (by constructor <;> norm_num)

/-- C3 counterexample: under OnlySell with a Long position and a
FastBelowSlow event, the code emits Close followed by OpenShort in the same
bar evaluation and ends Short, refuting the claim that only a Close is
emitted with resulting state Flat. -/
theorem onlySell_long_down_counterexample :
    (emaNext .onlySell .long false true).1 = [.close, .openShort] ∧
    OrderIntent.openShort ∈ (emaNext .onlySell .long false true).1 ∧
    (emaNext .onlySell .long false true).2 = .short ∧
    (emaNext .onlySell .long false true).1 ≠ [.close] := by decide

/-- C3 amended: under OnlySell, when the position is Long and a FastBelowSlow
event occurs, the machine emits Close and then OpenShort within the same bar
evaluation, and the resulting state is Short. -/
theorem onlySell_long_down_close_then_open_short (up : Bool) :
    (emaNext .onlySell .long up true).1 = [.close, .openShort] ∧
    (emaNext .onlySell .long up true).2 = .short := by
  cases up <;> decide

lemma onlyBuy_step_not_short (pos : PositionState) (u d : Bool) (h : pos ≠ .short) :
    (emaNext .onlyBuy pos u d).2 ≠ .short ∧
    OrderIntent.openShort ∉ (emaNext .onlyBuy pos u d).1 := by
  cases pos with
  | short => exact absurd rfl h
  | flat => cases u <;> cases d <;> decide
  | long => cases u <;> cases d <;> decide

lemma onlyBuy_inv (evs : List (Bool × Bool)) :
    ∀ pos : PositionState, pos ≠ .short →
      PositionState.short ∉ runStates .onlyBuy pos evs ∧
      OrderIntent.openShort ∉ runIntents .onlyBuy pos evs := by
  induction evs with
  | nil => intro pos _; simp [runStates, runIntents]
  | cons e rest ih =>
    intro pos h
    obtain ⟨h1, h2⟩ := onlyBuy_step_not_short pos e.1 e.2 h
    obtain ⟨h3, h4⟩ := ih (emaNext .onlyBuy pos e.1 e.2).2 h1
    constructor
    · simp only [runStates, List.mem_cons, not_or]
      exact ⟨fun hh => h1 hh.symm, h3⟩
    · simp only [runIntents, List.mem_append, not_or]
      exact ⟨h2, h4⟩

/-- C6: under OnlyBuy, for every sequence of crossover observations starting
from Flat, the position never becomes Short and no OpenShort intent is ever
emitted. -/
theorem onlyBuy_short_unreachable (evs : List (Bool × Bool)) :
    PositionState.short ∉ runStates .onlyBuy .flat evs ∧
    OrderIntent.openShort ∉ runIntents .onlyBuy .flat evs :=
  onlyBuy_inv evs .flat (by decide)

/-- C5: the standard engine output equals the unadjusted recursive EMA seeded
at the first close, at every index of a non-empty series, for every period
p ≥ 1. -/
theorem ema_pandas_matches_spec (close : List ℚ) (p : ℕ)
    (hne : close ≠ []) (hp : 1 ≤ p) :
    ∀ t, t < close.length → (ema_pandas close p).getD t 0 = emaSpecAt close p t := by
  obtain ⟨c, cs, rfl⟩ : ∃ c cs, close = c :: cs := by
    cases close with
    | nil => exact absurd rfl hne
    | cons c cs => exact ⟨c, cs, rfl⟩
  intro t
  induction t with
  | zero =>
    intro _
    show (ewmGo (2 / ((p : ℚ) + 1)) c cs).getD 0 0 = (c :: cs).getD 0 0
    rw [ewmGo_getD_zero]
    rfl
  | succ t ih =>
    intro ht
    have ht2 : t < (c :: cs).length := Nat.lt_of_succ_lt ht
    have hcs : t < cs.length := Nat.lt_of_succ_lt_succ ht
    show (ewmGo (2 / ((p : ℚ) + 1)) c cs).getD (t + 1) 0 = emaSpecAt (c :: cs) p (t + 1)
    rw [ewmGo_getD_succ _ _ _ _ hcs]
    have hspec : emaSpecAt (c :: cs) p (t + 1)
        = (2 / ((p : ℚ) + 1)) * (c :: cs).getD (t + 1) 0
          + (1 - 2 / ((p : ℚ) + 1)) * emaSpecAt (c :: cs) p t := rfl
    rw [hspec, ← ih ht2]
    rfl

/-- Witness for C5: the theorem applied to the series [3, 5, 7] with period 2
at index 1. -/
theorem ema_pandas_matches_spec_witness :
    (ema_pandas [(3 : ℚ), 5, 7] 2).getD 1 0 = emaSpecAt [(3 : ℚ), 5, 7] 2 1 :=
  ema_pandas_matches_spec [(3 : ℚ), 5, 7] 2 (by decide) (by decide) 1 (by decide)

/-- C8: whenever the TA-Lib engine is unavailable or its call raises, the
selecting function returns exactly the standard pandas EMA result (and, being
total, propagates no exception). -/
theorem ema_talib_fallback (engine : Option (List ℚ → ℕ → Except String (List ℚ)))
    (data : List ℚ) (period : ℕ)
    (h : engine = none ∨ ∃ f e, engine = some f ∧ f data period = .error e) :
    ema_talib_or_pandas engine data period = ema_pandas data period := by
  rcases h with rfl | ⟨f, e, rfl, hf⟩
  · rfl
  · simp [ema_talib_or_pandas, hf]

/-- Witness for C8: the unavailable engine on a concrete series falls back to
the pandas EMA. -/
theorem ema_talib_fallback_witness :
    ema_talib_or_pandas none [(1 : ℚ), 2, 3] 4 = ema_pandas [(1 : ℚ), 2, 3] 4 :=
  ema_talib_fallback none [(1 : ℚ), 2, 3] 4 (Or.inl rfl)

/- ===================== Parameter schema and validation ===================== -/

/-- Python numeric value as seen by `validate_params`: an int, a bool
(a subclass of int in Python), or a float, the latter modelled as an exact
rational. -/
inductive PyNum
  | vint (n : ℤ)
  | vbool (b : Bool)
  | vfloat (q : ℚ)
deriving DecidableEq

/-- Numeric magnitude of a Python value, used for `<` and `>` comparisons
(Python compares bools as 0/1). -/
def PyNum.toRat : PyNum → ℚ
  | .vint n => n
  | .vbool b => if b then 1 else 0
  | .vfloat q => q

/-- Embedding of `isinstance(value, int)`: true for ints and for bools
(Python bool is a subclass of int), false for floats. -/
def isInstanceInt : PyNum → Bool
  | .vint _ => true
  | .vbool _ => true
  | .vfloat _ => false

/-- Embedding of `isinstance(value, (int, float))`: true for every numeric
value. -/
def isInstanceNum : PyNum → Bool
  | _ => true

/-- Declared parameter type in a schema entry. -/
inductive PType
  | pint
  | pfloat
  | pstr
deriving DecidableEq

/-- Embedding of a ParamSpec entry of a `params_schema` dict
(src/core/strategy_base.py line 19): declared type, optional default,
optional bounds, description. -/
structure ParamSpec where
  type : PType
  default : Option PyNum := none
  lo : Option ℚ := none
  hi : Option ℚ := none
  description : String := ""
deriving DecidableEq

/-- Lookup in a Python dict modelled as an association list (first match). -/
def lookupVal (values : List (String × PyNum)) (name : String) : Option PyNum :=
  (values.find? fun p => p.1 == name).map fun p => p.2

/-- Test `value < param_info["min"]` guarded by `"min" in param_info`. -/
def checkMin : Option ℚ → ℚ → Bool
  | none, _ => false
  | some m, x => decide (x < m)

/-- Test `value > param_info["max"]` guarded by `"max" in param_info`. -/
def checkMax : Option ℚ → ℚ → Bool
  | none, _ => false
  | some m, x => decide (m < x)

/-- Embedding of `StrategyAdapter.validate_params`
(src/core/strategy_base.py lines 26-49): for each schema entry, a missing
value is allowed only when a default is declared; a present value must pass
the isinstance check for its declared type and the declared bounds. -/
def validate_params : List (String × ParamSpec) → List (String × PyNum) → Bool
  | [], _ => true
  | (name, info) :: rest, values =>
    match lookupVal values name with
    | none => if info.default.isSome then validate_params rest values else false
    | some v =>
      if info.type = PType.pint ∧ isInstanceInt v = false then false
      else if info.type = PType.pfloat ∧ isInstanceNum v = false then false
      else if checkMin info.lo v.toRat then false
      else if checkMax info.hi v.toRat then false
      else validate_params rest values

/-- Failure condition for one schema key, written from the claim's words:
the key is absent with no default, or present with a value of the wrong type
(int requires an int-typed value, float accepts int- or float-typed), or
present with a value outside a declared bound. -/
def specKeyFails (values : List (String × PyNum)) (name : String) (info : ParamSpec) : Prop :=
  (lookupVal values name = none ∧ info.default = none)
  ∨ (∃ v, lookupVal values name = some v ∧
      ((info.type = PType.pint ∧ isInstanceInt v = false)
        ∨ (info.type = PType.pfloat ∧ isInstanceNum v = false)
        ∨ (∃ m, info.lo = some m ∧ v.toRat < m)
        ∨ (∃ m, info.hi = some m ∧ m < v.toRat)))

lemma checkMin_iff (o : Option ℚ) (x : ℚ) :
    checkMin o x = true ↔ ∃ m, o = some m ∧ x < m := by
  cases o <;> simp [checkMin]

lemma checkMax_iff (o : Option ℚ) (x : ℚ) :
    checkMax o x = true ↔ ∃ m, o = some m ∧ m < x := by
  cases o <;> simp [checkMax]

lemma validate_params_false_iff (schema : List (String × ParamSpec))
    (values : List (String × PyNum)) :
    validate_params schema values = false ↔ ∃ p ∈ schema, specKeyFails values p.1 p.2 := by
  induction schema with
  | nil => simp [validate_params]
  | cons hd rest ih =>
    obtain ⟨name, info⟩ := hd
    simp only [validate_params]
    cases hv : lookupVal values name with
    | none =>
      cases hdef : info.default with
      | none =>
        simp only [hdef, Option.isSome_none, Bool.false_eq_true, if_false]
        constructor
        · intro _
          exact ⟨⟨name, info⟩, List.mem_cons_self _ _, Or.inl ⟨hv, hdef⟩⟩
        · intro _
          trivial
      | some d =>
        simp only [hdef, Option.isSome_some, if_true]
        rw [ih]
        constructor
        · rintro ⟨p, hp, hfail⟩
          exact ⟨p, List.mem_cons_of_mem _ hp, hfail⟩
        · rintro ⟨p, hp, hfail⟩
          rcases List.mem_cons.mp hp with rfl | hp2
          · rcases hfail with ⟨_, hdnone⟩ | ⟨v, hsome, _⟩
            · rw [hdef] at hdnone
              exact absurd hdnone (by simp)
            · rw [hv] at hsome
              exact absurd hsome (by simp)
          · exact ⟨p, hp2, hfail⟩
    | some v =>
      by_cases h1 : info.type = PType.pint ∧ isInstanceInt v = false
      · simp only [h1, if_true]
        constructor
        · intro _
          exact ⟨⟨name, info⟩, List.mem_cons_self _ _, Or.inr ⟨v, hv, Or.inl h1⟩⟩
        · intro _
          trivial
      · simp only [h1, if_false]
        by_cases h2 : info.type = PType.pfloat ∧ isInstanceNum v = false
        · simp only [h2, if_true]
          constructor
          · intro _
            exact ⟨⟨name, info⟩, List.mem_cons_self _ _, Or.inr ⟨v, hv, Or.inr (Or.inl h2)⟩⟩
          · intro _
            trivial
        · simp only [h2, if_false]
          by_cases h3 : checkMin info.lo v.toRat = true
          · simp only [h3, if_true]
            obtain ⟨m, hm, hlt⟩ := (checkMin_iff _ _).mp h3
            constructor
            · intro _
              exact ⟨⟨name, info⟩, List.mem_cons_self _ _,
                Or.inr ⟨v, hv, Or.inr (Or.inr (Or.inl ⟨m, hm, hlt⟩))⟩⟩
            · intro _
              trivial
          · rw [Bool.not_eq_true] at h3
            simp only [h3, Bool.false_eq_true, if_false]
            by_cases h4 : checkMax info.hi v.toRat = true
            · simp only [h4, if_true]
              obtain ⟨m, hm, hlt⟩ := (checkMax_iff _ _).mp h4
              constructor
              · intro _
                exact ⟨⟨name, info⟩, List.mem_cons_self _ _,
                  Or.inr ⟨v, hv, Or.inr (Or.inr (Or.inr ⟨m, hm, hlt⟩))⟩⟩
              · intro _
                trivial
            · rw [Bool.not_eq_true] at h4
              simp only [h4, Bool.false_eq_true, if_false]
              rw [ih]
              constructor
              · rintro ⟨p, hp, hfail⟩
                exact ⟨p, List.mem_cons_of_mem _ hp, hfail⟩
              · rintro ⟨p, hp, hfail⟩
                rcases List.mem_cons.mp hp with rfl | hp2
                · rcases hfail with ⟨hnone, _⟩ | ⟨w, hsome, hw⟩
                  · rw [hv] at hnone
                    exact absurd hnone (by simp)
                  · rw [hv] at hsome
                    have hwv : w = v := by injection hsome.symm
                    subst hwv
                    rcases hw with hA | hB | ⟨m, hm, hlt⟩ | ⟨m, hm, hlt⟩
                    · exact absurd hA h1
                    · exact absurd hB h2
                    · have : checkMin info.lo w.toRat = true :=
                        (checkMin_iff _ _).mpr ⟨m, hm, hlt⟩
                      rw [h3] at this
                      exact absurd this (by simp)
                    · have : checkMax info.hi w.toRat = true :=
                        (checkMax_iff _ _).mpr ⟨m, hm, hlt⟩
                      rw [h4] at this
                      exact absurd this (by simp)
                · exact ⟨p, hp2, hfail⟩

lemma validate_params_lookup_congr (schema : List (String × ParamSpec))
    (v1 v2 : List (String × PyNum))
    (h : ∀ p ∈ schema, lookupVal v1 p.1 = lookupVal v2 p.1) :
    validate_params schema v1 = validate_params schema v2 := by
  induction schema with
  | nil => rfl
  | cons hd rest ih =>
    obtain ⟨name, info⟩ := hd
    have hhd : lookupVal v1 name = lookupVal v2 name := h ⟨name, info⟩ (List.mem_cons_self _ _)
    have hrest : ∀ p ∈ rest, lookupVal v1 p.1 = lookupVal v2 p.1 :=
      fun p hp => h p (List.mem_cons_of_mem _ hp)
    simp only [validate_params, hhd]
    cases lookupVal v2 name with
    | none => rw [ih hrest]
    | some v => rw [ih hrest]

/-- C4: validate_params returns false exactly when some schema key is absent
without a default, present with a value failing its type's isinstance check,
or present with a value outside a declared bound; and values keys outside the
schema never affect the result. -/
theorem validate_params_spec (schema : List (String × ParamSpec))
    (values : List (String × PyNum)) :
    (validate_params schema values = false ↔
      ∃ p ∈ schema, specKeyFails values p.1 p.2) ∧
    (∀ values2 : List (String × PyNum),
      (∀ p ∈ schema, lookupVal values p.1 = lookupVal values2 p.1) →
      validate_params schema values = validate_params schema values2) :=
  ⟨validate_params_false_iff schema values,
   fun values2 h => validate_params_lookup_congr schema values values2 h⟩

/-- Observable behaviour of a looked-up value inside `validate_params`: its
two isinstance results and its numeric magnitude. -/
def obsOf : Option PyNum → Option (Bool × Bool × ℚ)
  | none => none
  | some v => some (isInstanceInt v, isInstanceNum v, v.toRat)

lemma validate_params_obs_congr (schema : List (String × ParamSpec))
    (v1 v2 : List (String × PyNum))
    (h : ∀ name, obsOf (lookupVal v1 name) = obsOf (lookupVal v2 name)) :
    validate_params schema v1 = validate_params schema v2 := by
  induction schema with
  | nil => rfl
  | cons hd rest ih =>
    obtain ⟨name, info⟩ := hd
    have hhd := h name
    simp only [validate_params]
    cases hv1 : lookupVal v1 name with
    | none =>
      cases hv2 : lookupVal v2 name with
      | none => rw [ih]
      | some w2 =>
        rw [hv1, hv2] at hhd
        simp [obsOf] at hhd
    | some w1 =>
      cases hv2 : lookupVal v2 name with
      | none =>
        rw [hv1, hv2] at hhd
        simp [obsOf] at hhd
      | some w2 =>
        rw [hv1, hv2] at hhd
        simp only [obsOf, Option.some.injEq, Prod.mk.injEq] at hhd
        simp only [hhd.1, hhd.2.1, hhd.2.2, ih]

lemma lookupVal_cons (k : String) (x : PyNum) (values : List (String × PyNum)) (name : String) :
    lookupVal ((k, x) :: values) name = if k == name then some x else lookupVal values name := by
  by_cases hk : (k == name) = true <;> simp [lookupVal, List.find?_cons, hk]

/-- C9: a Python bool passes the int isinstance check, its magnitude under
bound comparisons is 1 for True and 0 for False, and validating a schema with
a bool value gives exactly the result of validating it with the corresponding
0/1 int value. -/
theorem validate_params_accepts_bool (schema : List (String × ParamSpec))
    (values : List (String × PyNum)) (k : String) (b : Bool) :
    isInstanceInt (PyNum.vbool b) = true ∧
    (PyNum.vbool b).toRat = (((if b then 1 else 0 : ℤ)) : ℚ) ∧
    validate_params schema ((k, PyNum.vbool b) :: values)
      = validate_params schema ((k, PyNum.vint (if b then 1 else 0)) :: values) := by
  refine ⟨rfl, by cases b <;> simp [PyNum.toRat], ?_⟩
  apply validate_params_obs_congr
  intro name
  rw [lookupVal_cons, lookupVal_cons]
  by_cases hk : (k == name) = true
  · simp only [hk, if_true, obsOf, Option.some.injEq, Prod.mk.injEq]
    refine ⟨rfl, rfl, ?_⟩
    cases b <;> simp [PyNum.toRat]
  · simp [hk]

/- ===================== run_backtest guards ===================== -/

/-- Truncation toward zero, the behaviour of Python int() on a float. -/
def pyTruncRat (q : ℚ) : ℤ := if 0 ≤ q then ⌊q⌋ else ⌈q⌉

/-- Embedding of Python `int(value)` on a numeric value. -/
def pyIntOf : PyNum → ℤ
  | .vint n => n
  | .vbool b => if b then 1 else 0
  | .vfloat q => pyTruncRat q

/-- Params schema of the EMA crossover adapter
(src/strategies/ema_crossover.py lines 10-13). -/
def emaSchema : List (String × ParamSpec) :=
  [("fast_ema", { type := PType.pint, default := some (PyNum.vint 12),
                  lo := some 1, hi := some 100, description := "Fast EMA period" }),
   ("slow_ema", { type := PType.pint, default := some (PyNum.vint 26),
                  lo := some 2, hi := some 200, description := "Slow EMA period" })]

/-- Registry contents after startup registration (src/core/registry.py lines
28-40): the EMA crossover adapter, modelled by its schema, under its name. -/
def defaultRegistry : List (String × List (String × ParamSpec)) :=
  [("EMA Crossover", emaSchema)]

/-- Embedding of `StrategyRegistry.get` (src/core/registry.py lines 15-17). -/
def lookupSchema (reg : List (String × List (String × ParamSpec))) (name : String) :
    Option (List (String × ParamSpec)) :=
  (reg.find? fun p => p.1 == name).map fun p => p.2

/-- Error taxonomy of `run_backtest` before the engine starts. -/
inductive RunError
  | strategyNotFound (name : String)
  | invalidParams
  | orderingConstraint
  | keyError (k : String)
deriving DecidableEq

/-- Arguments handed to `bt.run` when `run_backtest` reaches it. -/
structure RunConfig where
  fast_ema : ℤ
  slow_ema : ℤ
  trade_mode : String
  indicator_engine : String
deriving DecidableEq

/-- Value of `int(params.get("fast_ema", 12))` in the ordering guard. -/
def fastGuardVal (params : List (String × PyNum)) : ℤ :=
  pyIntOf ((lookupVal params "fast_ema").getD (PyNum.vint 12))

/-- Value of `int(params.get("slow_ema", 26))` in the ordering guard. -/
def slowGuardVal (params : List (String × PyNum)) : ℤ :=
  pyIntOf ((lookupVal params "slow_ema").getD (PyNum.vint 26))

/-- Embedding of `run_backtest` (src/app.py lines 56-92) up to the hand-off
to the external engine: registry lookup, parameter validation, the ordering
guard, and the construction of the run kwargs (whose direct dict accesses
raise KeyError when a key is missing).  A returned RunConfig means `bt.run`
was invoked; every error is raised before any bar is processed. -/
def run_backtest (reg : List (String × List (String × ParamSpec))) (name : String)
    (params : List (String × PyNum)) (trade_mode indicator_engine : String) :
    Except RunError RunConfig :=
  match lookupSchema reg name with
  | none => .error (.strategyNotFound name)
  | some schema =>
    if validate_params schema params = false then .error .invalidParams
    else if slowGuardVal params ≤ fastGuardVal params then .error .orderingConstraint
    else
      match lookupVal params "fast_ema", lookupVal params "slow_ema" with
      | some fv, some sv =>
        .ok { fast_ema := pyIntOf fv, slow_ema := pyIntOf sv,
              trade_mode := trade_mode, indicator_engine := indicator_engine }
      | none, _ => .error (.keyError "fast_ema")
      | some _, none => .error (.keyError "slow_ema")

/-- Out-of-range parameters with fast ≥ slow, used to refute C7 as stated. -/
def oorParams : List (String × PyNum) :=
  [("fast_ema", PyNum.vint 150), ("slow_ema", PyNum.vint 100)]

/-- C7 counterexample: with fast_ema = 150 ≥ slow_ema = 100, the run fails
with the invalid-parameters error (validation precedes the ordering guard),
not the ordering-constraint error the claim requires. -/
theorem ordering_guard_counterexample :
    slowGuardVal oorParams ≤ fastGuardVal oorParams ∧
    run_backtest defaultRegistry "EMA Crossover" oorParams "Both_Buy_Sell" "pandas"
      = .error .invalidParams ∧
    run_backtest defaultRegistry "EMA Crossover" oorParams "Both_Buy_Sell" "pandas"
      ≠ .error .orderingConstraint := by
  refine ⟨by decide, rfl, fun h => ?_⟩
  have h2 : (Except.error RunError.invalidParams : Except RunError RunConfig)
      = Except.error RunError.orderingConstraint := by
    rw [← h]
    exact rfl
  simp at h2

/-- C7 amended: for every configuration whose strategy is registered and
whose parameters validate, fast period ≥ slow period fails with the
ordering-constraint error before any bar is processed; and for every
configuration whatsoever with fast period < slow period that error is never
raised. -/
theorem ordering_guard_spec (reg : List (String × List (String × ParamSpec)))
    (name : String) (params : List (String × PyNum)) (tm ie : String)
    (schema : List (String × ParamSpec))
    (hfound : lookupSchema reg name = some schema)
    (hvalid : validate_params schema params = true) :
    (slowGuardVal params ≤ fastGuardVal params →
      run_backtest reg name params tm ie = .error .orderingConstraint) ∧
    (∀ (reg2 : List (String × List (String × ParamSpec))) (name2 : String)
        (params2 : List (String × PyNum)) (tm2 ie2 : String),
      fastGuardVal params2 < slowGuardVal params2 →
      run_backtest reg2 name2 params2 tm2 ie2 ≠ .error .orderingConstraint) := by
  constructor
  · intro hge
    simp only [run_backtest, hfound, hvalid]
    rw [if_neg (by simp [hvalid]), if_pos hge]
  · intro reg2 name2 params2 tm2 ie2 hlt
    simp only [run_backtest]
    cases lookupSchema reg2 name2 with
    | none => simp
    | some schema2 =>
      by_cases hval : validate_params schema2 params2 = false
      · simp [hval]
      · simp only [hval, if_false]
        rw [if_neg (not_le.mpr hlt)]
        cases lookupVal params2 "fast_ema" <;> cases lookupVal params2 "slow_ema" <;> simp

/-- Parameters of spec Scenario 3 (fast 26, slow 12, both within bounds) and
the default parameters (fast 12, slow 26). -/
def scenario3Params : List (String × PyNum) :=
  [("fast_ema", PyNum.vint 26), ("slow_ema", PyNum.vint 12)]

/-- Default in-range parameters with fast < slow. -/
def okParams : List (String × PyNum) :=
  [("fast_ema", PyNum.vint 12), ("slow_ema", PyNum.vint 26)]

/-- Witness for C7: Scenario 3 yields the ordering-constraint error, and the
default parameters never do. -/
theorem ordering_guard_spec_witness :
    run_backtest defaultRegistry "EMA Crossover" scenario3Params "Both_Buy_Sell" "pandas"
      = .error .orderingConstraint ∧
    run_backtest defaultRegistry "EMA Crossover" okParams "Both_Buy_Sell" "pandas"
      ≠ .error .orderingConstraint :=
  ⟨(ordering_guard_spec defaultRegistry "EMA Crossover" scenario3Params "Both_Buy_Sell"
      "pandas" emaSchema (by decide) (by decide)).1 (by decide),
   (ordering_guard_spec defaultRegistry "EMA Crossover" okParams "Both_Buy_Sell"
      "pandas" emaSchema (by decide) (by decide)).2 defaultRegistry "EMA Crossover"
      okParams "Both_Buy_Sell" "pandas" (by decide)⟩

/-- Witness for C4: appending an extra key not named by the schema leaves the
validation result unchanged. -/
theorem validate_params_spec_witness :
    validate_params emaSchema okParams
      = validate_params emaSchema (okParams ++ [("extra", PyNum.vfloat (1 / 2))]) :=
  (validate_params_spec emaSchema okParams).2
    (okParams ++ [("extra", PyNum.vfloat (1 / 2))]) (by decide)

/- ===================== CSV ingestion pipeline ===================== -/

/-- One pandas cell: a numeric value, a non-numeric text, a missing value
(NaN), or a date.  A text cell whose content parses as a date under one of
the formats attempted by `parse_date_column` (or the generic parser) is
modelled directly as `date t` with t its timestamp; `str` covers text that
parses as neither date nor number except through `parseDecStr`. -/
inductive Cell
  | num (q : ℚ)
  | str (s : String)
  | nan
  | date (t : ℤ)
deriving DecidableEq

/-- A pandas DataFrame: named columns and rows of cells, positionally
aligned with the column list. -/
structure Frame where
  cols : List String
  rows : List (List Cell)
deriving DecidableEq

/-- A DataFrame after `set_index('date')`: remaining columns plus rows
carrying their timestamp index. -/
structure IFrame where
  cols : List String
  rows : List (ℤ × List Cell)
deriving DecidableEq

/-- Required lowercase column names (src/utils/io_utils.py line 8). -/
def requiredColumns : List String := ["date", "open", "high", "low", "close", "volume"]

/-- Numeric column names (src/utils/io_utils.py line 52). -/
def numericColumns : List String := ["open", "high", "low", "close", "volume"]

/-- Canonical column names expected by the engine
(src/utils/io_utils.py line 109). -/
def expectedColumns : List String := ["Open", "High", "Low", "Close", "Volume"]

/-- Index of a named column. -/
def colIdx (f : Frame) (name : String) : Option ℕ := f.cols.findIdx? (· == name)

/-- Cells of the column at position i. -/
def getColumn (f : Frame) (i : ℕ) : List Cell := f.rows.map fun r => r.getD i Cell.nan

/-- Replace the column at position i. -/
def setColumn (f : Frame) (i : ℕ) (newCol : List Cell) : Frame :=
  { cols := f.cols, rows := (f.rows.zip newCol).map fun p => p.1.set i p.2 }

/-- Embedding of `validate_csv_columns` (src/utils/io_utils.py lines 6-14):
exact, case-sensitive membership of each required lowercase name. -/
def validate_csv_columns (f : Frame) : Bool × String :=
  let missing := requiredColumns.filter fun c => !(f.cols.contains c)
  if missing = [] then (true, "")
  else (false, "Missing required columns: " ++ String.intercalate ", " missing)

/-- Test for a date-typed cell. -/
def isDateCell : Cell → Bool
  | .date _ => true
  | _ => false

/-- Embedding of `parse_date_column` (src/utils/io_utils.py lines 17-47).
The string-to-datetime conversion of pd.to_datetime is abstracted: a cell is
`Cell.date t` exactly when its text parses under one of the attempted
formats or the generic parser; the column parse succeeds when every entry of
the date column is such a cell, and otherwise the try/except returns an
error message (as it also does when the date column is absent). -/
def parse_date_column (f : Frame) : Bool × String :=
  match colIdx f "date" with
  | none => (false, "Error parsing date column: date")
  | some i =>
    if (getColumn f i).all isDateCell then (true, "")
    else (false, "Error parsing date column: invalid values")

/-- Digit-list value, defined when non-empty and all digits. -/
def digitsVal (cs : List Char) : Option ℕ :=
  if cs = [] then none
  else if cs.all Char.isDigit then
    some (cs.foldl (fun acc c => acc * 10 + (c.toNat - 48)) 0)
  else none

/-- Split a character list at the first dot. -/
def splitDot : List Char → List Char × Option (List Char)
  | [] => ([], none)
  | c :: rest =>
    if c = '.' then ([], some rest)
    else
      let p := splitDot rest
      (c :: p.1, p.2)

/-- Decimal literal parser standing in for the numeric parsing done by
`pd.to_numeric`, restricted to optionally signed plain decimals; the exact
accepted language is irrelevant to the claims, which only use that parsing
either yields a number or (on failure) a missing value. -/
def parseDecStr (s : String) : Option ℚ :=
  let p : ℚ × List Char :=
    match s.data with
    | '-' :: rest => (-1, rest)
    | '+' :: rest => (1, rest)
    | cs => (1, cs)
  match splitDot p.2 with
  | (ip, none) => (digitsVal ip).map fun n => p.1 * n
  | (ip, some fp) =>
    match digitsVal ip, digitsVal fp with
    | some n, some m => some (p.1 * ((n : ℚ) + (m : ℚ) / (10 ^ fp.length)))
    | _, _ => none

/-- Coercion of one cell by `pd.to_numeric(..., errors=cast-invalid-to-NaN)`:
numbers and NaN unchanged, dates become their numeric value, text becomes its
parsed number or NaN. -/
def toNumericCoerceCell (c : Cell) : Cell :=
  match c with
  | .num q => .num q
  | .nan => .nan
  | .date t => .num t
  | .str s =>
    match parseDecStr s with
    | some q => .num q
    | none => .nan

/-- Modelled from pandas: `pd.to_numeric` with coerce replaces unparseable
entries by NaN and never raises on scalar column data, so the column
coercion is total and always returns ok. -/
def toNumericCoerceCol (cells : List Cell) : Except String (List Cell) :=
  .ok (cells.map toNumericCoerceCell)

/-- Embedding of `pd.api.types.is_numeric_dtype` on a column: numeric dtype
means every cell is a number or NaN. -/
def isNumericDtypeCol (cells : List Cell) : Bool :=
  cells.all fun c =>
    match c with
    | .num _ => true
    | .nan => true
    | _ => false

/-- Loop of `validate_numeric_columns` over the numeric column names:
a missing column raises an uncaught KeyError at `df[col]` (the access sits
outside the try), modelled as `none`; a non-numeric column is coerced, with
the except branch returning the non-numeric-data message. -/
def vncGo (f : Frame) : List String → Option (Frame × Bool × String)
  | [] => some (f, true, "")
  | c :: rest =>
    match colIdx f c with
    | none => none
    | some i =>
      if isNumericDtypeCol (getColumn f i) then vncGo f rest
      else
        match toNumericCoerceCol (getColumn f i) with
        | .ok newCol => vncGo (setColumn f i newCol) rest
        | .error _ => some (f, false, "Column " ++ c ++ " contains non-numeric data")

/-- Embedding of `validate_numeric_columns` (src/utils/io_utils.py lines
50-61). -/
def validate_numeric_columns (f : Frame) : Option (Frame × Bool × String) :=
  vncGo f numericColumns

/-- Timestamp of a date cell (0 on other cells; only applied to parsed date
columns). -/
def cellDate : Cell → ℤ
  | .date t => t
  | _ => 0

/-- Embedding of `df.set_index('date')` (src/utils/io_utils.py line 86):
the date column becomes the row index.  The none branch is unreachable in
`load_and_validate_csv`, which validates the columns first. -/
def set_index_date (f : Frame) : IFrame :=
  match colIdx f "date" with
  | none => { cols := f.cols, rows := [] }
  | some i =>
    { cols := f.cols.eraseIdx i,
      rows := f.rows.map fun r => (cellDate (r.getD i Cell.nan), r.eraseIdx i) }

/-- Title-casing of one string, the ASCII behaviour of Python str.title():
an alphabetic character is uppercased after a non-alphabetic character (or at
the start) and lowercased otherwise. -/
def titleChars : Bool → List Char → List Char
  | _, [] => []
  | prevAlpha, c :: cs =>
    (if c.isAlpha then (if prevAlpha then c.toLower else c.toUpper) else c)
      :: titleChars c.isAlpha cs

/-- Python `col.title()` for ASCII column names. -/
def pyTitle (s : String) : String := String.mk (titleChars false s.data)

/-- Embedding of the column renaming `[col.title() for col in df.columns]`
(src/utils/io_utils.py line 89). -/
def retitleCols (g : IFrame) : IFrame := { cols := g.cols.map pyTitle, rows := g.rows }

/-- Insertion into a timestamp-sorted row list. -/
def insertByTs (a : ℤ × List Cell) : List (ℤ × List Cell) → List (ℤ × List Cell)
  | [] => [a]
  | b :: rest => if a.1 ≤ b.1 then a :: b :: rest else b :: insertByTs a rest

/-- Ascending sort of rows by timestamp index, the effect of
`df.sort_index()` (src/utils/io_utils.py line 92); only the resulting order
matters, not the sorting algorithm. -/
def sortByTs : List (ℤ × List Cell) → List (ℤ × List Cell)
  | [] => []
  | a :: rest => insertByTs a (sortByTs rest)

/-- Frame-level sort by index. -/
def sortFrame (g : IFrame) : IFrame := { cols := g.cols, rows := sortByTs g.rows }

/-- A row containing a missing value in any column. -/
def rowHasNan (r : List Cell) : Bool :=
  r.any fun c =>
    match c with
    | .nan => true
    | _ => false

/-- Embedding of `df.dropna()` (src/utils/io_utils.py line 95): drop every
row holding a NaN in any column. -/
def dropnaFrame (g : IFrame) : IFrame :=
  { cols := g.cols, rows := g.rows.filter fun r => !(rowHasNan r.2) }

/-- Steps set_index / title-case / sort / dropna of `load_and_validate_csv`,
applied to the numeric-coerced frame. -/
def cleanedFrame (f : Frame) : IFrame :=
  dropnaFrame (sortFrame (retitleCols (set_index_date f)))

/-- The frame as mutated by `validate_numeric_columns` (identity when that
call fails, a case `load_and_validate_csv` never uses). -/
def coercedFrame (f : Frame) : Frame :=
  match validate_numeric_columns f with
  | some (g, _, _) => g
  | none => f

/-- Embedding of `load_and_validate_csv` (src/utils/io_utils.py lines
64-103): column validation, date parsing, numeric validation, set_index,
title-casing, ascending sort, dropna, and the empty-result check; any
uncaught exception is caught by the outer try and reported as a load error. -/
def load_and_validate_csv (f : Frame) : Except String IFrame :=
  if (validate_csv_columns f).1 = false then .error (validate_csv_columns f).2
  else if (parse_date_column f).1 = false then .error (parse_date_column f).2
  else
    match validate_numeric_columns f with
    | none => .error "Error loading CSV: key error"
    | some (f2, ok, msg) =>
      if ok = false then .error msg
      else
        if (cleanedFrame f2).rows = [] then .error "No valid data rows found after processing"
        else .ok (cleanedFrame f2)

/-- Embedding of `prepare_data_for_backtest` (src/utils/io_utils.py lines
106-119): check the canonical columns are present, then select exactly them
in the fixed order (label selection picks the first matching column). -/
def prepare_data_for_backtest (g : IFrame) : Except String IFrame :=
  let missing := expectedColumns.filter fun c => !(g.cols.contains c)
  if missing = [] then
    .ok { cols := expectedColumns,
          rows := g.rows.map fun r =>
            (r.1, expectedColumns.map fun c =>
              r.2.getD ((g.cols.findIdx? (· == c)).getD 0) Cell.nan) }
  else .error ("Missing columns for backtesting: " ++ String.intercalate ", " missing)

lemma vncGo_cols (names : List String) :
    ∀ (f g : Frame) (b : Bool) (m : String),
      vncGo f names = some (g, b, m) → g.cols = f.cols := by
  induction names with
  | nil =>
    intro f g b m h
    simp only [vncGo, Option.some.injEq, Prod.mk.injEq] at h
    rw [← h.1]
  | cons c rest ih =>
    intro f g b m h
    simp only [vncGo] at h
    cases hidx : colIdx f c with
    | none => rw [hidx] at h; cases h
    | some i =>
      rw [hidx] at h
      by_cases hnum : isNumericDtypeCol (getColumn f i) = true
      · simp only [hnum, if_true] at h
        exact ih f g b m h
      · rw [Bool.not_eq_true] at hnum
        simp only [hnum, Bool.false_eq_true, if_false, toNumericCoerceCol] at h
        exact ih (setColumn f i ((getColumn f i).map toNumericCoerceCell)) g b m h

lemma vncGo_ok (names : List String) :
    ∀ f : Frame, (names.all fun c => f.cols.contains c) = true →
      ∃ g, vncGo f names = some (g, true, "") := by
  induction names with
  | nil => intro f _; exact ⟨f, rfl⟩
  | cons c rest ih =>
    intro f h
    simp only [List.all_cons, Bool.and_eq_true] at h
    obtain ⟨hc, hrest⟩ := h
    have hcm : c ∈ f.cols := by simpa using hc
    have hsome : (f.cols.findIdx? (· == c)).isSome = true := by
      rw [List.findIdx?_isSome, List.any_eq_true]
      exact ⟨c, hcm, by simp⟩
    obtain ⟨i, hi⟩ := Option.isSome_iff_exists.mp hsome
    by_cases hnum : isNumericDtypeCol (getColumn f i) = true
    · obtain ⟨g, hg⟩ := ih f hrest
      refine ⟨g, ?_⟩
      simp only [vncGo, colIdx, hi, hnum, if_true]
      exact hg
    · rw [Bool.not_eq_true] at hnum
      obtain ⟨g, hg⟩ :=
        ih (setColumn f i ((getColumn f i).map toNumericCoerceCell)) hrest
      refine ⟨g, ?_⟩
      simp only [vncGo, colIdx, hi, hnum, Bool.false_eq_true, if_false, toNumericCoerceCol]
      exact hg

/-- C10: for every frame containing the five numeric columns, the numeric
validation succeeds with an empty message: the coercion error branch cannot
fire, because pandas coercion replaces non-numeric values by NaN instead of
rejecting them. -/
theorem validate_numeric_columns_success (f : Frame)
    (h : (numericColumns.all fun c => f.cols.contains c) = true) :
    ∃ g, validate_numeric_columns f = some (g, true, "") :=
  vncGo_ok numericColumns f h

/-- Frame used as the concrete input of the C10 witness: the high column
holds non-numeric text, the low column a missing value. -/
def sampleFrame : Frame :=
  { cols := ["date", "open", "high", "low", "close", "volume"],
    rows := [[Cell.date 100, Cell.num 1, Cell.str "abc", Cell.nan, Cell.num 3, Cell.str "4"]] }

/-- Witness for C10: the validation succeeds on the sample frame. -/
theorem validate_numeric_columns_success_witness :
    ∃ g, validate_numeric_columns sampleFrame = some (g, true, "") :=
  validate_numeric_columns_success sampleFrame (by decide)

lemma mem_insertByTs (a x : ℤ × List Cell) (l : List (ℤ × List Cell))
    (h : x ∈ insertByTs a l) : x = a ∨ x ∈ l := by
  induction l with
  | nil => simpa [insertByTs] using h
  | cons b rest ih =>
    by_cases hab : a.1 ≤ b.1
    · simp only [insertByTs, if_pos hab] at h
      rcases List.mem_cons.mp h with rfl | h2
      · exact Or.inl rfl
      · exact Or.inr h2
    · simp only [insertByTs, if_neg hab] at h
      rcases List.mem_cons.mp h with rfl | h2
      · exact Or.inr (List.mem_cons_self _ _)
      · rcases ih h2 with rfl | h3
        · exact Or.inl rfl
        · exact Or.inr (List.mem_cons_of_mem _ h3)

lemma pairwise_insertByTs (a : ℤ × List Cell) (l : List (ℤ × List Cell))
    (h : List.Pairwise (fun x y => x.1 ≤ y.1) l) :
    List.Pairwise (fun x y => x.1 ≤ y.1) (insertByTs a l) := by
  induction l with
  | nil => simp [insertByTs]
  | cons b rest ih =>
    rcases List.pairwise_cons.mp h with ⟨hb, hrest⟩
    by_cases hab : a.1 ≤ b.1
    · rw [show insertByTs a (b :: rest) = a :: b :: rest from by simp [insertByTs, hab]]
      refine List.pairwise_cons.mpr ⟨?_, h⟩
      intro x hx
      rcases List.mem_cons.mp hx with rfl | hx2
      · exact hab
      · exact le_trans hab (hb x hx2)
    · rw [show insertByTs a (b :: rest) = b :: insertByTs a rest from by simp [insertByTs, hab]]
      refine List.pairwise_cons.mpr ⟨?_, ih hrest⟩
      intro x hx
      rcases mem_insertByTs a x rest hx with rfl | hx2
      · exact le_of_not_le hab
      · exact hb x hx2

lemma pairwise_sortByTs (l : List (ℤ × List Cell)) :
    List.Pairwise (fun x y => x.1 ≤ y.1) (sortByTs l) := by
  induction l with
  | nil => simp [sortByTs]
  | cons a rest ih => exact pairwise_insertByTs a _ ih

lemma mem_eraseIdx_of_ne (l : List String) (d c : String) (i : ℕ)
    (hfind : l.findIdx? (· == d) = some i) (hc : c ∈ l) (hne : c ≠ d) :
    c ∈ l.eraseIdx i := by
  obtain ⟨hi, hpi, _⟩ := List.findIdx?_eq_some_iff_getElem.mp hfind
  obtain ⟨j, hj, hjc⟩ := List.getElem_of_mem hc
  have hdi : l[i] = d := by simpa using hpi
  have hji : j ≠ i := by
    intro hrfl
    subst hrfl
    rw [hjc] at hdi
    exact hne hdi
  exact List.mem_eraseIdx_iff_getElem.mpr ⟨j, hj, hji, hjc⟩

lemma filter_not_contains_nil (cols : List String) (names : List String)
    (h : ∀ c ∈ names, cols.contains c = true) :
    names.filter (fun c => !(cols.contains c)) = [] := by
  induction names with
  | nil => rfl
  | cons a as ih =>
    simp only [List.filter_cons, h a (List.mem_cons_self _ _), Bool.not_true,
      Bool.false_eq_true, if_false]
    exact ih fun c hc => h c (List.mem_cons_of_mem _ hc)

lemma contains_of_mem (l : List String) (c : String) (h : c ∈ l) : l.contains c = true :=
  List.elem_eq_true_of_mem h

/-- Frame whose date column is spelled `Date`, refuting C1's case
insensitivity. -/
def mixedCaseFrame : Frame :=
  { cols := ["Date", "open", "high", "low", "close", "volume"],
    rows := [[Cell.date 1, Cell.num 1, Cell.num 2, Cell.num 0, Cell.num 1, Cell.num 5]] }

/-- C1 counterexample: a CSV whose six required columns are present but with
`Date` capitalised is rejected by the case-sensitive column check, so
ingestion does not accept required columns in any character case. -/
theorem csv_case_sensitivity_counterexample :
    (validate_csv_columns mixedCaseFrame).1 = false ∧
    (validate_csv_columns mixedCaseFrame).2 = "Missing required columns: date" ∧
    load_and_validate_csv mixedCaseFrame = .error "Missing required columns: date" := by
  refine ⟨by decide, by decide, ?_⟩
  rfl

/-- C1 amended: for every CSV whose required columns are present spelled
exactly in lowercase (in any column order), with distinct labels before and
after title-casing, whose date column parses, and which keeps at least one
complete row after numeric coercion and NaN-dropping, ingestion accepts the
frame and the series handed to the engine has columns exactly
Open, High, Low, Close, Volume in that order with rows sorted ascending by
timestamp. -/
theorem csv_ingestion_canonical (f : Frame)
    (hreq : (requiredColumns.all fun c => f.cols.contains c) = true)
    (hnodup : f.cols.Nodup)
    (htnodup : ((cleanedFrame (coercedFrame f)).cols).Nodup)
    (hdate : (parse_date_column f).1 = true)
    (hne : (cleanedFrame (coercedFrame f)).rows ≠ []) :
    load_and_validate_csv f = .ok (cleanedFrame (coercedFrame f)) ∧
    ∃ out, prepare_data_for_backtest (cleanedFrame (coercedFrame f)) = .ok out ∧
      out.cols = expectedColumns ∧
      List.Pairwise (fun a b => a.1 ≤ b.1) out.rows := by
  have hall : ∀ c ∈ requiredColumns, f.cols.contains c = true :=
    fun c hc => List.all_eq_true.mp hreq c hc
  have hvcc : validate_csv_columns f = (true, "") := by
    have hfilt := filter_not_contains_nil f.cols requiredColumns hall
    simp [validate_csv_columns, hfilt]
    intro x hx
    simpa using hall x hx
  have hnumall : (numericColumns.all fun c => f.cols.contains c) = true := by
    rw [List.all_eq_true]
    intro c hc
    apply hall
    simp only [numericColumns, List.mem_cons, List.not_mem_nil, or_false] at hc
    rcases hc with rfl | rfl | rfl | rfl | rfl <;> simp [requiredColumns]
  obtain ⟨g, hvn⟩ := vncGo_ok numericColumns f hnumall
  have hvn2 : validate_numeric_columns f = some (g, true, "") := hvn
  have hcoer : coercedFrame f = g := by simp [coercedFrame, hvn2]
  rw [hcoer] at hne ⊢
  have hne2 : ¬((cleanedFrame g).rows = []) := hne
  constructor
  · unfold load_and_validate_csv
    rw [if_neg (by simp [hvcc])]
    rw [if_neg (by simp [hdate])]
    simp only [hvn2]
    rw [if_neg (by simp)]
    rw [if_neg hne2]
  · have hgcols : g.cols = f.cols := vncGo_cols numericColumns f g true "" hvn
    have hdm : "date" ∈ f.cols := by
      have := hall "date" (by simp [requiredColumns])
      simpa using this
    have hsome : (g.cols.findIdx? (· == "date")).isSome = true := by
      rw [hgcols, List.findIdx?_isSome, List.any_eq_true]
      exact ⟨"date", hdm, by simp⟩
    obtain ⟨i, hi⟩ := Option.isSome_iff_exists.mp hsome
    have hcols : (cleanedFrame g).cols = (g.cols.eraseIdx i).map pyTitle := by
      simp [cleanedFrame, dropnaFrame, sortFrame, retitleCols, set_index_date, colIdx, hi]
    have base : ∀ s : String, s ∈ f.cols → s ≠ "date" →
        pyTitle s ∈ (g.cols.eraseIdx i).map pyTitle := by
      intro s hs hne3
      exact List.mem_map_of_mem _
        (mem_eraseIdx_of_ne g.cols "date" s i hi (by rw [hgcols]; exact hs) hne3)
    have hmem : ∀ c ∈ expectedColumns, (cleanedFrame g).cols.contains c = true := by
      rw [hcols]
      intro c hc
      simp only [expectedColumns, List.mem_cons, List.not_mem_nil, or_false] at hc
      rcases hc with rfl | rfl | rfl | rfl | rfl
      · have hb := base "open" (by simpa using hall "open" (by simp [requiredColumns]))
          (by decide)
        rw [show pyTitle "open" = "Open" from by decide] at hb
        exact contains_of_mem _ _ hb
      · have hb := base "high" (by simpa using hall "high" (by simp [requiredColumns]))
          (by decide)
        rw [show pyTitle "high" = "High" from by decide] at hb
        exact contains_of_mem _ _ hb
      · have hb := base "low" (by simpa using hall "low" (by simp [requiredColumns]))
          (by decide)
        rw [show pyTitle "low" = "Low" from by decide] at hb
        exact contains_of_mem _ _ hb
      · have hb := base "close" (by simpa using hall "close" (by simp [requiredColumns]))
          (by decide)
        rw [show pyTitle "close" = "Close" from by decide] at hb
        exact contains_of_mem _ _ hb
      · have hb := base "volume" (by simpa using hall "volume" (by simp [requiredColumns]))
          (by decide)
        rw [show pyTitle "volume" = "Volume" from by decide] at hb
        exact contains_of_mem _ _ hb
    have hmiss : expectedColumns.filter (fun c => !((cleanedFrame g).cols.contains c)) = [] :=
      filter_not_contains_nil _ _ hmem
    refine ⟨{ cols := expectedColumns,
              rows := (cleanedFrame g).rows.map fun r =>
                (r.1, expectedColumns.map fun c =>
                  r.2.getD (((cleanedFrame g).cols.findIdx? (· == c)).getD 0) Cell.nan) },
            ?_, rfl, ?_⟩
    · simp only [prepare_data_for_backtest, colIdx]
      rw [if_pos hmiss]
    · refine List.Pairwise.map _ (fun a b h => h) ?_
      exact List.Pairwise.filter _ (pairwise_sortByTs _)

/-- Frame with scrambled lowercase columns and out-of-order timestamps, used
as the concrete input of the C1 witness. -/
def scrambledFrame : Frame :=
  { cols := ["volume", "close", "date", "low", "high", "open"],
    rows := [[Cell.num 10, Cell.num 9, Cell.date 200, Cell.num 1, Cell.num 12, Cell.num 11],
             [Cell.num 20, Cell.num 8, Cell.date 100, Cell.num 2, Cell.num 13, Cell.num 12]] }

/-- Witness for C1 amended: the scrambled frame is accepted and yields the
canonical sorted series. -/
theorem csv_ingestion_canonical_witness :
    load_and_validate_csv scrambledFrame = .ok (cleanedFrame (coercedFrame scrambledFrame)) ∧
    ∃ out, prepare_data_for_backtest (cleanedFrame (coercedFrame scrambledFrame)) = .ok out ∧
      out.cols = expectedColumns ∧
      List.Pairwise (fun a b => a.1 ≤ b.1) out.rows :=
  csv_ingestion_canonical scrambledFrame (by decide) (by decide) (by decide) (by decide)
    (by decide)
